import Mathlib

/-!
Verification of the chunk-extraction and serialization pipeline of
mt-digidisplay-converter (src/main.py) against its specification.

The embedding below follows the Python source function by function:
numbers are Nat, the decoded pixel buffer is a total function from
(row, column) to a channel list in decoder storage order, file contents
are strings, and the file system state relevant to one output file is an
Option String (none when the file does not exist).
-/

namespace Digi

/-- Digit character used by Python numeral formatting: 0-9 then lowercase
letters; the digit loops below only apply it to values below the base. -/
def pyDigitChar (n : Nat) : Char :=
  if n < 10 then Char.ofNat (48 + n) else Char.ofNat (87 + n)

/-- Fuel-based base-b digit expansion of a natural number; fuel n + 1 is
always sufficient for argument n. -/
def pyDigitsCore (base : Nat) : Nat → Nat → List Char → List Char
  | 0, _, acc => acc
  | fuel + 1, n, acc =>
    if n < base then pyDigitChar n :: acc
    else pyDigitsCore base fuel (n / base) (pyDigitChar (n % base) :: acc)

/-- The base-b digits of n as characters. -/
def pyDigits (base n : Nat) : List Char := pyDigitsCore base (n + 1) n []

/-- Python str(n) for a natural number: decimal digits. -/
def pyStrNat (n : Nat) : String := String.mk (pyDigits 10 n)

/-- Python format(n, "02x"): lowercase hexadecimal, left-padded with zeros
to width two. -/
def pyHex2 (n : Nat) : String :=
  String.mk (List.replicate (2 - (pyDigits 16 n).length) '0' ++ pyDigits 16 n)

/-- Lowercase hexadecimal digit test (0-9 or a-f). -/
def isLowerHexDigit (c : Char) : Bool :=
  (48 ≤ c.toNat && c.toNat ≤ 57) || (97 ≤ c.toNat && c.toNat ≤ 102)

/-- The color pattern of the specification: a hash character followed by
exactly six lowercase hexadecimal digits. -/
def matchesColorPattern (s : String) : Bool :=
  match s.data with
  | c :: rest => c == '#' && rest.length == 6 && rest.all isLowerHexDigit
  | [] => false

/-- A string of exactly two lowercase hexadecimal digits. -/
def hex2ok (s : String) : Bool := s.data.length == 2 && s.data.all isLowerHexDigit

/-- Python single-character str.replace on a character list: every occurrence
of the character a becomes the character list b. -/
def pyReplaceCharL (a : Char) (b : List Char) : List Char → List Char
  | [] => []
  | c :: cs => (if c = a then b else [c]) ++ pyReplaceCharL a b cs

/-- Python s.replace(a, b) for a single-character pattern a. -/
def pyReplaceChar (s : String) (a : Char) (b : String) : String :=
  String.mk (pyReplaceCharL a b.data s.data)

/-- Index of the last occurrence of a character in a character list
(Python str.rfind, with none in place of -1). -/
def lastIdxOf (c : Char) : List Char → Option Nat
  | [] => none
  | a :: as =>
    match lastIdxOf c as with
    | some i => some (i + 1)
    | none => if a = c then some 0 else none

/-- pathlib PurePath.stem of a bare file name: the part before the last dot
when that dot is neither leading nor trailing, otherwise the whole name. -/
def pyStem (name : String) : String :=
  match lastIdxOf '.' name.data with
  | some i =>
    if 0 < i ∧ i + 1 < name.data.length then String.mk (name.data.take i) else name
  | none => name

/-- namedtuple Point: the chunk size in pixels, x = width, y = height. -/
structure Point where
  x : Nat
  y : Nat
  deriving DecidableEq

/-- namedtuple Image: a validated image, carrying its path stem and the chunk
grid dimensions chx (columns) and chy (rows). -/
structure Image where
  path : String
  chx : Nat
  chy : Nat
  deriving DecidableEq

/-- A decoded pixel buffer: pixel dimensions, and for every (row, column) the
channel list in the storage order of the decoder (cv2 stores blue, green, red). -/
structure ImageData where
  height : Nat
  width : Nat
  pix : Nat → Nat → List Nat

/-- namedtuple Brackets(open, close); open is a Lean keyword, hence opn / cls. -/
structure Brackets where
  opn : String
  cls : String
  deriving DecidableEq

/-- namedtuple Chunk(name, data): the serialized header and data strings of a
group. -/
structure Chunk where
  name : String
  data : String
  deriving DecidableEq

/-- Outcome of validating one candidate image, mirroring the per-file
exceptions NotAnImage and TooSmallImage of get_image_tuples. -/
inductive Validation where
  | valid : Image → Validation
  | notAnImage : Validation
  | tooSmall : Validation
  deriving DecidableEq

/-- Body of the per-file loop of get_image_tuples (src/main.py lines 60-77):
an unreadable decode result rejects the file as NotAnImage; otherwise the
vertical and horizontal chunk counts are the floor divisions of the pixel
dimensions by the chunk size and the image is rejected as TooSmallImage when
either count is zero, else accepted as Image(path, horizontal_ch, vertical_ch). -/
def validate_image (path : String) (decoded : Option ImageData) (chunk_size : Point) : Validation :=
  match decoded with
  | none => Validation.notAnImage
  | some dimg =>
    let vertical_ch := dimg.height / chunk_size.y
    let horizontal_ch := dimg.width / chunk_size.x
    if vertical_ch = 0 ∨ horizontal_ch = 0 then Validation.tooSmall
    else Validation.valid (Image.mk path horizontal_ch vertical_ch)

/-- get_image_tuples over the candidate list: a failed validation is logged
and skipped (the loop continues with the next file), successes are appended
in order. -/
def get_image_tuples (cands : List (String × Option ImageData)) (chunk_size : Point) : List Image :=
  cands.filterMap (fun pd =>
    match validate_image pd.1 pd.2 chunk_size with
    | Validation.valid img => some img
    | _ => none)

/-- One pixel to a color string (src/main.py lines 88-89): the channel list is
reversed (Python slice step -1, turning storage order blue-green-red into
red-green-blue) and the first three entries are each formatted as two lowercase
hexadecimal digits after a hash sign.  The decoder always yields exactly three
channels, so the fallback branch is unreachable on real buffers. -/
def colorString (px : List Nat) : String :=
  match px.reverse with
  | r :: g :: b :: _ => "#" ++ pyHex2 r ++ pyHex2 g ++ pyHex2 b
  | _ => "#"

/-- The chunk matrix at chunk coordinate (ch_column, ch_row): chunk_size.y rows
of chunk_size.x color strings, entry (y, x) reading the source pixel at
(y + ch_row * chunk_size.y, x + ch_column * chunk_size.x). -/
def chunk_matrix (dimg : ImageData) (chunk_size : Point) (ch_column ch_row : Nat) : List (List String) :=
  (List.range chunk_size.y).map (fun y =>
    (List.range chunk_size.x).map (fun x =>
      colorString (dimg.pix (y + ch_row * chunk_size.y) (x + ch_column * chunk_size.x))))

/-- get_chunks_dict (src/main.py lines 81-99): an ordered mapping with one
entry per chunk coordinate, generated row outer and column inner and keyed by
(ch_column, ch_row).  Modelled as the association list in insertion order; all
keys are distinct, so the OrderedDict keeps every generated entry. -/
def get_chunks_dict (dimg : ImageData) (img : Image) (chunk_size : Point) : List ((Nat × Nat) × List (List String)) :=
  ((List.range img.chy).map (fun ch_row =>
    (List.range img.chx).map (fun ch_column =>
      ((ch_column, ch_row), chunk_matrix dimg chunk_size ch_column ch_row)))).flatten

/-- Python str of a pair of ints: parenthesized, comma-space separated. -/
def pyReprPair (p : Nat × Nat) : String :=
  "(" ++ pyStrNat p.1 ++ ", " ++ pyStrNat p.2 ++ ")"

/-- The single-quote character, via its code point. -/
def squote : String := String.mk [Char.ofNat 39]

/-- Python repr of a color string: single-quoted (color strings never contain
quotes or backslashes). -/
def pyReprColor (s : String) : String := squote ++ s ++ squote

/-- Python str of a list, given the rendering of its elements: square
brackets around a comma-space separated element list. -/
def pyReprList {α : Type} (f : α → String) (l : List α) : String :=
  "[" ++ String.intercalate ", " (l.map f) ++ "]"

/-- Python slice l[i : i + g]. -/
def listSlice {α : Type} (l : List α) (i g : Nat) : List α := (l.drop i).take g

/-- The header string of a group (src/main.py line 104): str of the key slice
with every square bracket character removed. -/
def group_header (keys : List (Nat × Nat)) : String :=
  pyReplaceChar (pyReplaceChar (pyReprList pyReprPair keys) '[' "") ']' ""

/-- The data string of a group (src/main.py lines 105-106): str of the value
slice with every square bracket character replaced by the configured bracket
strings. -/
def group_data (vals : List (List (List String))) (brackets : Brackets) : String :=
  pyReplaceChar (pyReplaceChar (pyReprList (pyReprList (pyReprList pyReprColor)) vals) '[' brackets.opn) ']' brackets.cls

/-- output_generator (src/main.py lines 102-106): for i in range(0, N, G) it
yields the serialization of the slices keys[i : i + G] and values[i : i + G]
paired with the sequence number i / G.  range(0, N, G) is modelled by
List.range' with step G and ceil(N / G) elements. -/
def output_generator (chunks_dict : List ((Nat × Nat) × List (List String))) (chunks_group_size : Nat) (brackets : Brackets) : List (Chunk × Nat) :=
  (List.range' 0 ((chunks_dict.length + chunks_group_size - 1) / chunks_group_size) chunks_group_size).map (fun i =>
    (Chunk.mk (group_header (listSlice (chunks_dict.map Prod.fst) i chunks_group_size))
              (group_data (listSlice (chunks_dict.map Prod.snd) i chunks_group_size) brackets),
     i / chunks_group_size))

/-- Line 113 of src/main.py: open in append mode when the target file exists
and (overwrite is off or one-file mode is on); otherwise truncate-write. -/
def store_mode (file_exists one_file overwrite : Bool) : String :=
  if file_exists && (!overwrite || one_file) then "a" else "w"

/-- The write-mode policy in the words of the specification: append when
one-file mode is active, or overwrite is requested and the group index is
positive; truncate in every other case. -/
def spec_store_mode (num : Nat) (one_file overwrite : Bool) : String :=
  if one_file || (overwrite && decide (0 < num)) then "a" else "w"

/-- The amended write-mode policy: append exactly when the target file already
exists and (one-file mode is on or overwrite is off); truncate otherwise.  The
group index does not influence the mode. -/
def amended_store_mode (file_exists one_file overwrite : Bool) : String :=
  if file_exists && (one_file || !overwrite) then "a" else "w"

/-- The text written for one group (src/main.py lines 116-119): a comment line
holding the header, a blank line, the optional assignment prefix, the data, a
newline, and the optional generated loop snippet whose coordinate tokens come
from the header by replacing parenthesis characters with double quotes and
removing spaces. -/
def group_content (header data : String) (add_code : Bool) : String :=
  let front_code := if add_code then "mem.data = " else ""
  let back_code :=
    if add_code then
      "\nfor k,v in ipairs(\x7b" ++
        (pyReplaceChar (pyReplaceChar (pyReplaceChar header '(' "\"") ')' "\"") ' ' "") ++
        "\x7d) do digiline_send(v, mem.data[k]) end\n"
    else ""
  "--" ++ header ++ "\n\n" ++ front_code ++ data ++ "\n" ++ back_code ++ "\n"

/-- File-content semantics of store_output (src/main.py lines 113-119) for the
target file: old is the content before the call (none when the file does not
exist), the result is the content after.  The mode is computed from the
pre-call existence (line 113); with overwrite and group index 0 the file is
first truncated to empty (lines 114-115); then the group text is appended or
written depending on the mode (lines 118-119). -/
def store_output (old : Option String) (header data : String) (num : Nat) (one_file overwrite add_code : Bool) : String :=
  let mode := store_mode old.isSome one_file overwrite
  let old2 := if overwrite && num == 0 then some "" else old
  if mode = "a" then old2.getD "" ++ group_content header data add_code
  else group_content header data add_code

/-- Output file naming of store_output (src/main.py lines 110-112): the name
starts as the image path stem followed by the bracketed grid dimensions; when
not in one-file mode the name is replaced by its pathlib stem with the group
number appended in parentheses; finally ".txt" is appended to the name. -/
def output_filename (stem : String) (chx chy num : Nat) (one_file : Bool) : String :=
  let f0 := stem ++ "[" ++ pyStrNat chx ++ "," ++ pyStrNat chy ++ "]"
  let f1 := if !one_file then pyStem f0 ++ "(" ++ pyStrNat num ++ ")" else f0
  f1 ++ ".txt"

/-- Folding store_output over an indexed list of (group number, header, data)
triples, tracking the evolving content of a single target file, as the main
loop does in one-file mode. -/
def run_groups (st : Option String) (grps : List (Nat × String × String)) (one_file overwrite add_code : Bool) : Option String :=
  grps.foldl (fun acc g => some (store_output acc g.2.1 g.2.2 g.1 one_file overwrite add_code)) st

/-- Claim-side coordinate-token transformation for the generated snippet, in
the words of the specification: every parenthesis character is replaced by a
double-quote character and every space is removed. -/
def specCoordTokens : List Char → List Char
  | [] => []
  | c :: cs =>
    if c = ' ' then specCoordTokens cs
    else if c = '(' ∨ c = ')' then '"' :: specCoordTokens cs
    else c :: specCoordTokens cs

/-- Claim-side red-green-blue hexadecimal encoding of a pixel. -/
def rgbHexEncoding (red green blue : Nat) : String :=
  "#" ++ pyHex2 red ++ pyHex2 green ++ pyHex2 blue

/-- Concatenation of a list of strings, used to state what a sequence of
appends leaves in a file. -/
def concatContents (l : List String) : String := l.foldr (fun a b => a ++ b) ""

/-- A small concrete chunk map (three chunks of a one-row grid layout) used to
evaluate the serializer on explicit input. -/
def sampleDict : List ((Nat × Nat) × List (List String)) :=
  [((0, 0), [["#000000"]]), ((1, 0), [["#ffffff"]]), ((0, 1), [["#0080ff"]])]

/-- The default bracket configuration of the program. -/
def sampleBrackets : Brackets := Brackets.mk "\x7b" "\x7d"

theorem string_mk_data (l : List Char) : (String.mk l).data = l := rfl

theorem concatContents_cons (a : String) (l : List String) :
    concatContents (a :: l) = a ++ concatContents l := rfl

theorem sum_map_const_nat {α : Type} (l : List α) (c : Nat) :
    (l.map (fun _ => c)).sum = l.length * c := by
  induction l with
  | nil => simp
  | cons a as ih => simp [ih, Nat.succ_mul, Nat.add_comm]

theorem pyReplaceCharL_append (a : Char) (b : List Char) (l m : List Char) :
    pyReplaceCharL a b (l ++ m) = pyReplaceCharL a b l ++ pyReplaceCharL a b m := by
  induction l with
  | nil => rfl
  | cons c cs ih => simp [pyReplaceCharL, ih, List.append_assoc]

theorem replace_chain_list (l : List Char) :
    pyReplaceCharL ' ' [] (pyReplaceCharL ')' ['"'] (pyReplaceCharL '(' ['"'] l)) =
      specCoordTokens l := by
  induction l with
  | nil => rfl
  | cons c cs ih =>
    by_cases h1 : c = '('
    · subst h1
      simp [pyReplaceCharL, pyReplaceCharL_append, specCoordTokens, ih]
    · by_cases h2 : c = ')'
      · subst h2
        simp [pyReplaceCharL, pyReplaceCharL_append, specCoordTokens, ih]
      · by_cases h3 : c = ' '
        · subst h3
          simp [pyReplaceCharL, pyReplaceCharL_append, specCoordTokens, ih]
        · simp [pyReplaceCharL, pyReplaceCharL_append, specCoordTokens, ih, h1, h2, h3]

theorem pyReplaceChain_eq_spec (s : String) :
    pyReplaceChar (pyReplaceChar (pyReplaceChar s '(' "\"") ')' "\"") ' ' "" =
      String.mk (specCoordTokens s.data) := by
  simp only [pyReplaceChar, string_mk_data]
  exact congrArg String.mk (replace_chain_list s.data)

/-- Claim C5 fails on the code: at a pre-existing target file with overwrite
off, one-file off and group index 0, line 113 opens in append mode while the
claimed policy opens in truncate mode. -/
theorem write_mode_claim_false :
    ¬ ∀ (file_exists : Bool) (num : Nat) (one_file overwrite : Bool),
        store_mode file_exists one_file overwrite = spec_store_mode num one_file overwrite := by
  intro h
  exact absurd (h true 0 false false) (by decide)

/-- Claim C5 amended: the file is opened in append mode exactly when it
already exists and (one-file mode is on or overwrite is off), and in truncate
mode in every other case; the group index never influences the mode.  Append
mode preserves the pre-call content as a prefix (outside the separate
overwrite-at-index-0 truncation of C6), truncate mode discards it. -/
theorem write_mode_amended :
    (∀ file_exists one_file overwrite,
      store_mode file_exists one_file overwrite =
        amended_store_mode file_exists one_file overwrite) ∧
    (∀ (old : Option String) header data num one_file overwrite add_code,
      store_mode old.isSome one_file overwrite = "a" →
      ¬(overwrite = true ∧ num = 0) →
      store_output old header data num one_file overwrite add_code =
        old.getD "" ++ group_content header data add_code) ∧
    (∀ (old : Option String) header data num one_file overwrite add_code,
      store_mode old.isSome one_file overwrite = "w" →
      store_output old header data num one_file overwrite add_code =
        group_content header data add_code) := by
  refine ⟨by decide, ?_, ?_⟩
  · intro old header data num one_file overwrite add_code hmode hnum
    have hcond : (overwrite && num == 0) = false := by
      cases overwrite
      · rfl
      · have : num ≠ 0 := fun h0 => hnum ⟨rfl, h0⟩
        simp [this]
    simp [store_output, hmode, hcond]
  · intro old header data num one_file overwrite add_code hmode
    simp [store_output, hmode]

theorem write_mode_amended_witness :
    store_output (some "OLD") "h" "d" 3 false false true =
      (some "OLD").getD "" ++ group_content "h" "d" true ∧
    store_output none "h" "d" 0 false false true = group_content "h" "d" true := by
  constructor
  · exact write_mode_amended.2.1 (some "OLD") "h" "d" 3 false false true (by decide)
      (by simp)
  · exact write_mode_amended.2.2 none "h" "d" 0 false false true (by decide)

/-- Claim C7: with add-code on, the written text prefixes the data with the
assignment text and appends the generated loop snippet whose coordinate tokens
arise from the header by turning parentheses into double quotes and deleting
spaces; with add-code off, neither is present. -/
theorem add_code_content (header data : String) :
    group_content header data true =
      "--" ++ header ++ "\n\n" ++ "mem.data = " ++ data ++ "\n" ++
        ("\nfor k,v in ipairs(\x7b" ++ String.mk (specCoordTokens header.data) ++
          "\x7d) do digiline_send(v, mem.data[k]) end\n") ++ "\n" ∧
    group_content header data false = "--" ++ header ++ "\n\n" ++ data ++ "\n" ++ "\n" := by
  constructor
  · simp only [group_content, if_pos rfl, pyReplaceChain_eq_spec]
    simp [String.append_assoc]
  · simp only [group_content, if_neg Bool.false_ne_true]
    simp [String.append_assoc, String.append_empty, String.empty_append]

/-- Claim C8: an image strictly smaller than one chunk in either dimension is
rejected as TooSmallImage, the rejection only skips that file (the remaining
candidates produce the same image tuples), so the image contributes nothing
downstream. -/
theorem too_small_rejected (pre post : List (String × Option ImageData))
    (path : String) (dimg : ImageData) (chunk_size : Point)
    (hsmall : dimg.height / chunk_size.y = 0 ∨ dimg.width / chunk_size.x = 0) :
    validate_image path (some dimg) chunk_size = Validation.tooSmall ∧
    get_image_tuples (pre ++ (path, some dimg) :: post) chunk_size =
      get_image_tuples (pre ++ post) chunk_size := by
  have hval : validate_image path (some dimg) chunk_size = Validation.tooSmall := by
    simp [validate_image, hsmall, if_pos]
  refine ⟨hval, ?_⟩
  simp [get_image_tuples, List.filterMap_append, List.filterMap_cons, hval]

theorem too_small_rejected_witness :
    validate_image "tiny" (some (ImageData.mk 5 40 (fun _ _ => []))) (Point.mk 16 16) =
      Validation.tooSmall ∧
    get_image_tuples ([] ++ ("tiny", some (ImageData.mk 5 40 (fun _ _ => []))) :: [])
        (Point.mk 16 16) =
      get_image_tuples ([] ++ []) (Point.mk 16 16) :=
  too_small_rejected [] [] "tiny" (ImageData.mk 5 40 (fun _ _ => [])) (Point.mk 16 16)
    (Or.inl (by decide))

/-- Claim C10: with overwrite off and one-file off, a call on an existing file
appends, keeping every previous byte and placing the group text after them;
and the truncating mode only ever happens when the file does not exist or
overwrite is set. -/
theorem append_preserves_existing :
    (∀ (old header data : String) num add_code,
      store_output (some old) header data num false false add_code =
        old ++ group_content header data add_code) ∧
    (∀ file_exists one_file overwrite,
      store_mode file_exists one_file overwrite = "w" →
      file_exists = false ∨ overwrite = true) := by
  constructor
  · intro old header data num add_code
    simp [store_output, store_mode]
  · decide

theorem append_preserves_existing_witness :
    store_output (some "OLD") "h" "d" 0 false false false =
      "OLD" ++ group_content "h" "d" false ∧
    (false = false ∨ true = true) :=
  ⟨append_preserves_existing.1 "OLD" "h" "d" 0 false,
   append_preserves_existing.2 false false true (by decide)⟩

theorem length_get_chunks_dict (dimg : ImageData) (img : Image) (chunk_size : Point) :
    (get_chunks_dict dimg img chunk_size).length = img.chy * img.chx := by
  simp only [get_chunks_dict, List.length_flatten, List.map_map, Function.comp]
  have h : ∀ r : Nat,
      ((List.range img.chx).map (fun ch_column =>
        ((ch_column, r), chunk_matrix dimg chunk_size ch_column r))).length = img.chx := by
    intro r
    simp
  calc ((List.range img.chy).map (fun r =>
          ((List.range img.chx).map (fun ch_column =>
            ((ch_column, r), chunk_matrix dimg chunk_size ch_column r))).length)).sum
      = ((List.range img.chy).map (fun _ => img.chx)).sum := by
        apply congrArg
        exact List.map_congr_left (fun r _ => h r)
    _ = img.chy * img.chx := by rw [sum_map_const_nat]; simp

/-- Claim C1: on every image passing validation with pixel dimensions H x W
and chunk size h x w, the Image tuple holds chx = floor(W / w) and
chy = floor(H / h), and the chunk map has exactly floor(H / h) * floor(W / w)
entries. -/
theorem chunk_grid_and_count (path : String) (dimg : ImageData) (chunk_size : Point)
    (img : Image)
    (hval : validate_image path (some dimg) chunk_size = Validation.valid img) :
    img.chx = dimg.width / chunk_size.x ∧ img.chy = dimg.height / chunk_size.y ∧
    (get_chunks_dict dimg img chunk_size).length =
      (dimg.height / chunk_size.y) * (dimg.width / chunk_size.x) := by
  simp only [validate_image] at hval
  by_cases h : dimg.height / chunk_size.y = 0 ∨ dimg.width / chunk_size.x = 0
  · rw [if_pos h] at hval
    exact absurd hval (by simp)
  · rw [if_neg h] at hval
    have himg : Image.mk path (dimg.width / chunk_size.x) (dimg.height / chunk_size.y) = img := by
      simpa using hval
    subst himg
    exact ⟨rfl, rfl, length_get_chunks_dict dimg _ chunk_size⟩

theorem chunk_grid_and_count_witness :
    (Image.mk "img" 2 2).chx = 32 / 16 ∧ (Image.mk "img" 2 2).chy = 32 / 16 ∧
    (get_chunks_dict (ImageData.mk 32 32 (fun _ _ => [0, 0, 0])) (Image.mk "img" 2 2)
      (Point.mk 16 16)).length = (32 / 16) * (32 / 16) :=
  chunk_grid_and_count "img" (ImageData.mk 32 32 (fun _ _ => [0, 0, 0])) (Point.mk 16 16)
    (Image.mk "img" 2 2) (by decide)

/-- Claim C3: the insertion order of the chunk map keys is row-major: whenever
(c1, r1) precedes (c2, r2), either r1 < r2, or r1 = r2 and c1 < c2. -/
theorem chunk_order_row_major (dimg : ImageData) (img : Image) (chunk_size : Point) :
    ((get_chunks_dict dimg img chunk_size).map Prod.fst).Pairwise
      (fun p q => p.2 < q.2 ∨ (p.2 = q.2 ∧ p.1 < q.1)) := by
  unfold get_chunks_dict
  rw [List.map_flatten, List.map_map, List.pairwise_flatten]
  constructor
  · intro l hl
    rw [List.mem_map] at hl
    obtain ⟨r, _, rfl⟩ := hl
    simp only [Function.comp, List.map_map]
    rw [List.pairwise_map]
    exact (List.pairwise_lt_range img.chx).imp (fun hab => Or.inr ⟨rfl, hab⟩)
  · rw [List.pairwise_map]
    apply (List.pairwise_lt_range img.chy).imp
    intro r1 r2 h12 p hp q hq
    simp only [Function.comp, List.map_map, List.mem_map] at hp hq
    obtain ⟨c1, _, rfl⟩ := hp
    obtain ⟨c2, _, rfl⟩ := hq
    exact Or.inl h12

theorem run_groups_enumFrom_pos (add_code : Bool) (grps : List (String × String)) :
    ∀ (s : Nat) (acc : String), 1 ≤ s →
    run_groups (some acc) (List.enumFrom s grps) true true add_code =
      some (acc ++ concatContents (grps.map (fun g => group_content g.1 g.2 add_code))) := by
  induction grps with
  | nil =>
    intro s acc _
    simp [run_groups, concatContents, String.append_empty]
  | cons g rest ih =>
    intro s acc hs
    rw [List.enumFrom_cons]
    simp only [run_groups, List.foldl_cons]
    have hs0 : (s == 0) = false := by
      simp
      omega
    have hstep : store_output (some acc) g.1 g.2 s true true add_code =
        acc ++ group_content g.1 g.2 add_code := by
      simp [store_output, store_mode, hs0]
    rw [hstep]
    have := ih (s + 1) (acc ++ group_content g.1 g.2 add_code) (by omega)
    simp only [run_groups] at this
    rw [this, List.map_cons, concatContents_cons, String.append_assoc]

/-- Claim C6: with overwrite requested and group index 0 the target file is
truncated to empty before the group text lands, so the call result never
contains the old content; and a full run with overwrite and one-file on a
pre-existing file ends with exactly the concatenation of the group texts:
group 0 replaced the old content and groups 1..N appended without truncation. -/
theorem overwrite_first_group_truncates :
    (∀ (old : Option String) header data one_file add_code,
      store_output old header data 0 one_file true add_code =
        group_content header data add_code) ∧
    (∀ (old : String) (grps : List (String × String)) add_code, grps ≠ [] →
      run_groups (some old) (List.enum grps) true true add_code =
        some (concatContents (grps.map (fun g => group_content g.1 g.2 add_code)))) := by
  have part1 : ∀ (old : Option String) header data one_file add_code,
      store_output old header data 0 one_file true add_code =
        group_content header data add_code := by
    intro old header data one_file add_code
    simp only [store_output, store_mode]
    split
    · simp
    · rfl
  refine ⟨part1, ?_⟩
  intro old grps add_code hne
  cases grps with
  | nil => exact absurd rfl hne
  | cons g rest =>
    rw [List.enum_cons]
    simp only [run_groups, List.foldl_cons]
    rw [show store_output (some old) g.1 g.2 0 true true add_code =
          group_content g.1 g.2 add_code from part1 (some old) g.1 g.2 true add_code]
    have := run_groups_enumFrom_pos add_code rest 1 (group_content g.1 g.2 add_code)
      (by omega)
    simp only [run_groups] at this
    rw [this, List.map_cons, concatContents_cons]

theorem pyDigitChar_no_dot : ∀ m, m < 16 → pyDigitChar m ≠ '.' := by decide

theorem pyDigitsCore_no_dot (base : Nat) (hb : 0 < base) (hb16 : base ≤ 16) :
    ∀ (fuel n : Nat) (acc : List Char), (∀ c ∈ acc, c ≠ '.') →
      ∀ c ∈ pyDigitsCore base fuel n acc, c ≠ '.' := by
  intro fuel
  induction fuel with
  | zero => intro n acc hacc c hc; exact hacc c hc
  | succ f ih =>
    intro n acc hacc c hc
    rw [pyDigitsCore] at hc
    by_cases h : n < base
    · rw [if_pos h] at hc
      rcases List.mem_cons.1 hc with hc | hc
      · subst hc; exact pyDigitChar_no_dot n (Nat.lt_of_lt_of_le h hb16)
      · exact hacc c hc
    · rw [if_neg h] at hc
      refine ih (n / base) (pyDigitChar (n % base) :: acc) ?_ c hc
      intro x hx
      rcases List.mem_cons.1 hx with hx | hx
      · subst hx
        exact pyDigitChar_no_dot (n % base) (Nat.lt_of_lt_of_le (Nat.mod_lt n hb) hb16)
      · exact hacc x hx

theorem pyStrNat_no_dot (n : Nat) : ∀ c ∈ (pyStrNat n).data, c ≠ '.' := by
  intro c hc
  simp only [pyStrNat, pyDigits, string_mk_data] at hc
  exact pyDigitsCore_no_dot 10 (by norm_num) (by norm_num) (n + 1) n [] (by simp) c hc

theorem lastIdxOf_getElem (c : Char) :
    ∀ (l : List Char) (i : Nat), lastIdxOf c l = some i → l[i]? = some c := by
  intro l
  induction l with
  | nil => intro i h; simp [lastIdxOf] at h
  | cons a as ih =>
    intro i h
    rw [lastIdxOf] at h
    cases hr : lastIdxOf c as with
    | some j =>
      rw [hr] at h
      have hij : i = j + 1 := by
        cases h
        rfl
      subst hij
      rw [List.getElem?_cons_succ]
      exact ih j hr
    | none =>
      rw [hr] at h
      by_cases ha : a = c
      · rw [if_pos ha] at h
        have hi0 : i = 0 := by
          cases h
          rfl
        subst hi0
        rw [List.getElem?_cons_zero, ha]
      · rw [if_neg ha] at h
        exact absurd h (by simp)

theorem drop_one_append_mem {l m : List Char} (c : Char) (hc : c ∈ (l ++ m).drop 1) :
    c ∈ l.drop 1 ∨ c ∈ m := by
  cases l with
  | nil =>
    right
    simp only [List.nil_append] at hc
    exact List.mem_of_mem_drop hc
  | cons a as =>
    simp only [List.cons_append, List.drop_succ_cons, List.drop_zero] at hc
    rcases List.mem_append.1 hc with h | h
    · left; simpa using h
    · right; exact h

theorem no_interior_dot_append (l m : List Char)
    (hl : ∀ c ∈ l.drop 1, c ≠ '.') (hm : ∀ c ∈ m, c ≠ '.') :
    ∀ c ∈ (l ++ m).drop 1, c ≠ '.' := by
  intro c hc
  rcases drop_one_append_mem c hc with h | h
  · exact hl c h
  · exact hm c h

theorem pyStem_no_interior_dot (s : String)
    (hdot : ∀ c ∈ s.data.drop 1, c ≠ '.') : pyStem s = s := by
  unfold pyStem
  split
  · rename_i i heq
    have hget := lastIdxOf_getElem '.' s.data i heq
    split
    · rename_i hcond
      exfalso
      have h1 : (s.data.drop 1)[i - 1]? = some '.' := by
        rw [List.getElem?_drop]
        have h11 : 1 + (i - 1) = i := by omega
        rw [h11, hget]
      have hmem : '.' ∈ s.data.drop 1 := List.mem_iff_getElem?.2 ⟨i - 1, h1⟩
      exact hdot '.' hmem rfl
    · rfl
  · rfl

theorem bracket_part_no_dot (chx chy : Nat) :
    ∀ c ∈ ("[" ++ pyStrNat chx ++ "," ++ pyStrNat chy ++ "]").data, c ≠ '.' := by
  intro c hc
  simp only [String.data_append, List.mem_append] at hc
  rcases hc with (((hc | hc) | hc) | hc) | hc
  · obtain rfl := List.mem_singleton.1 hc
    decide
  · exact pyStrNat_no_dot chx c hc
  · obtain rfl := List.mem_singleton.1 hc
    decide
  · exact pyStrNat_no_dot chy c hc
  · obtain rfl := List.mem_singleton.1 hc
    decide

theorem range'_mul_step (G : Nat) :
    ∀ (k s : Nat), List.range' (s * G) k G = (List.range' s k).map (fun j => j * G) := by
  intro k
  induction k with
  | zero => intro s; rfl
  | succ n ih =>
    intro s
    rw [List.range'_succ, List.range'_succ, List.map_cons]
    refine congrArg (List.cons (s * G)) ?_
    rw [show s * G + G = (s + 1) * G by rw [Nat.succ_mul], show s + 1 * 1 = s + 1 by omega]
    exact ih (s + 1)

theorem output_generator_eq_map_range
    (chunks_dict : List ((Nat × Nat) × List (List String))) (G : Nat) (brackets : Brackets)
    (hG : 0 < G) :
    output_generator chunks_dict G brackets =
      (List.range ((chunks_dict.length + G - 1) / G)).map (fun j =>
        (Chunk.mk (group_header (listSlice (chunks_dict.map Prod.fst) (j * G) G))
                  (group_data (listSlice (chunks_dict.map Prod.snd) (j * G) G) brackets),
         j)) := by
  unfold output_generator
  have h0 : List.range' 0 ((chunks_dict.length + G - 1) / G) G =
      (List.range ((chunks_dict.length + G - 1) / G)).map (fun j => j * G) := by
    have h1 := range'_mul_step G ((chunks_dict.length + G - 1) / G) 0
    rw [Nat.zero_mul] at h1
    rw [h1, List.range_eq_range']
  rw [h0, List.map_map]
  apply List.map_congr_left
  intro j _
  simp [Function.comp, Nat.mul_div_cancel j hG]

theorem output_generator_map_snd
    (chunks_dict : List ((Nat × Nat) × List (List String))) (G : Nat) (brackets : Brackets)
    (hG : 0 < G) :
    (output_generator chunks_dict G brackets).map Prod.snd =
      List.range ((chunks_dict.length + G - 1) / G) := by
  rw [output_generator_eq_map_range chunks_dict G brackets hG, List.map_map]
  simp [Function.comp_def]

/-- Claim C9 fails on the code: for the image stem a.b (a stem holding a dot,
as arises from an image file named a.b.png) with chunk grid 2 x 2 and group 0
outside one-file mode, the produced file name is a(0).txt, not
a.b[2,2](0).txt, because line 111 re-applies the pathlib stem to the already
decorated name. -/
theorem naming_claim_false :
    output_filename "a.b" 2 2 0 false = "a(0).txt" ∧
    output_filename "a.b" 2 2 0 false ≠ "a.b[2,2](0).txt" := by
  constructor
  · rfl
  · decide

/-- Claim C9 amended: for every image stem with no dot after its first
character the written file name is the stem followed by the bracketed grid
dimensions, with the parenthesized group index inserted exactly when one-file
mode is off, and the fixed extension txt; moreover a 32 x 32 image with
16 x 16 chunks validates to grid 2 x 2, yields 4 chunks and with group size 2
exactly the two sequence indices 0 and 1, whose files are stem[2,2](0).txt and
stem[2,2](1).txt. -/
theorem naming_amended :
    (∀ (stem : String) (chx chy num : Nat) (one_file : Bool),
      (∀ c ∈ stem.data.drop 1, c ≠ '.') →
      output_filename stem chx chy num one_file =
        stem ++ ("[" ++ pyStrNat chx ++ "," ++ pyStrNat chy ++ "]") ++
          (if one_file then "" else "(" ++ pyStrNat num ++ ")") ++ ".txt") ∧
    (∀ (dimg : ImageData) (path : String) (brackets : Brackets),
      dimg.height = 32 → dimg.width = 32 →
      validate_image path (some dimg) (Point.mk 16 16) =
        Validation.valid (Image.mk path 2 2) ∧
      (get_chunks_dict dimg (Image.mk path 2 2) (Point.mk 16 16)).length = 4 ∧
      ((output_generator (get_chunks_dict dimg (Image.mk path 2 2) (Point.mk 16 16))
          2 brackets).map Prod.snd) = [0, 1]) ∧
    output_filename "img" 2 2 0 false = "img[2,2](0).txt" ∧
    output_filename "img" 2 2 1 false = "img[2,2](1).txt" := by
  refine ⟨?_, ?_, by decide, by decide⟩
  · intro stem chx chy num one_file hdot
    have hstem : pyStem (stem ++ "[" ++ pyStrNat chx ++ "," ++ pyStrNat chy ++ "]") =
        stem ++ "[" ++ pyStrNat chx ++ "," ++ pyStrNat chy ++ "]" := by
      apply pyStem_no_interior_dot
      have hre : stem ++ "[" ++ pyStrNat chx ++ "," ++ pyStrNat chy ++ "]" =
          stem ++ ("[" ++ pyStrNat chx ++ "," ++ pyStrNat chy ++ "]") := by
        simp [String.append_assoc]
      rw [hre, String.data_append]
      exact no_interior_dot_append _ _ hdot (bracket_part_no_dot chx chy)
    cases one_file with
    | true =>
      simp only [output_filename, Bool.not_true, Bool.false_eq_true, if_false, if_true]
      simp only [String.append_empty, String.append_assoc]
    | false =>
      simp only [output_filename, Bool.not_false, if_true, if_false, hstem]
      rw [if_neg (by decide : ¬(false = true))]
      simp only [String.append_assoc]
  · intro dimg path brackets h32h h32w
    obtain ⟨H, W, pix⟩ := dimg
    simp only at h32h h32w
    subst h32h h32w
    have hlen : (get_chunks_dict (ImageData.mk 32 32 pix) (Image.mk path 2 2)
        (Point.mk 16 16)).length = 4 := by
      rw [length_get_chunks_dict]
      rfl
    refine ⟨by norm_num [validate_image], hlen, ?_⟩
    rw [output_generator_map_snd _ 2 brackets (by norm_num), hlen]
    decide

theorem naming_amended_witness :
    output_filename "img2" 3 4 5 false =
      "img2" ++ ("[" ++ pyStrNat 3 ++ "," ++ pyStrNat 4 ++ "]") ++
        (if false then "" else "(" ++ pyStrNat 5 ++ ")") ++ ".txt" ∧
    validate_image "p" (some (ImageData.mk 32 32 (fun _ _ => [0, 0, 0]))) (Point.mk 16 16) =
      Validation.valid (Image.mk "p" 2 2) :=
  ⟨naming_amended.1 "img2" 3 4 5 false (by decide),
   (naming_amended.2.1 (ImageData.mk 32 32 (fun _ _ => [0, 0, 0])) "p"
     (Brackets.mk "\x7b" "\x7d") rfl rfl).1⟩

theorem overwrite_first_group_truncates_witness :
    store_output (some "OLD") "h0" "d0" 0 true true false =
      group_content "h0" "d0" false ∧
    run_groups (some "OLD") (List.enum [("h0", "d0"), ("h1", "d1")]) true true false =
      some (concatContents ([("h0", "d0"), ("h1", "d1")].map
        (fun g => group_content g.1 g.2 false))) :=
  ⟨overwrite_first_group_truncates.1 (some "OLD") "h0" "d0" true false,
   overwrite_first_group_truncates.2 "OLD" [("h0", "d0"), ("h1", "d1")] false (by decide)⟩

set_option maxRecDepth 8192 in
theorem hex2ok_pyHex2 : ∀ n, n < 256 → hex2ok (pyHex2 n) = true := by decide

theorem colorPattern_append (a b c : String)
    (ha : hex2ok a = true) (hb : hex2ok b = true) (hc : hex2ok c = true) :
    matchesColorPattern ("#" ++ a ++ b ++ c) = true := by
  simp only [hex2ok, Bool.and_eq_true, beq_iff_eq, List.all_eq_true] at ha hb hc
  obtain ⟨haL, haA⟩ := ha
  obtain ⟨hbL, hbA⟩ := hb
  obtain ⟨hcL, hcA⟩ := hc
  have hdata : ("#" ++ a ++ b ++ c).data = '#' :: (a.data ++ b.data ++ c.data) := by
    simp [String.data_append, show ("#" : String).data = ['#'] from rfl]
  rw [matchesColorPattern.eq_def, hdata]
  simp only [List.all_append, List.all_eq_true, beq_iff_eq, List.length_append]
  simp [haL, hbL, hcL]
  exact ⟨⟨haA, hbA⟩, hcA⟩

theorem colorString_bgr (bb gg rr : Nat) :
    colorString [bb, gg, rr] = rgbHexEncoding rr gg bb := rfl

theorem flatten_getElem_uniform {α : Type} (w c : Nat) (hc : c < w) :
    ∀ (L : List (List α)) (r : Nat), (∀ l ∈ L, l.length = w) → r < L.length →
      L.flatten[r * w + c]? = L[r]?.bind (fun row => row[c]?) := by
  intro L
  induction L with
  | nil => intro r _ hr; simp at hr
  | cons row rest ih =>
    intro r hlen hr
    have hrow : row.length = w := hlen row (List.mem_cons_self row rest)
    cases r with
    | zero =>
      rw [List.flatten_cons, Nat.zero_mul, Nat.zero_add, List.getElem?_append,
        if_pos (by rw [hrow]; exact hc), List.getElem?_cons_zero]
      rfl
    | succ r2 =>
      have hidx : (r2 + 1) * w + c = row.length + (r2 * w + c) := by
        rw [hrow]
        ring
      rw [List.flatten_cons, hidx, List.getElem?_append, if_neg (by omega),
        Nat.add_sub_cancel_left, List.getElem?_cons_succ]
      exact ih r2 (fun l hl => hlen l (List.mem_cons_of_mem row hl)) (by simpa using hr)

theorem get_chunks_dict_entry (dimg : ImageData) (img : Image) (chunk_size : Point)
    (c r : Nat) (hc : c < img.chx) (hr : r < img.chy) :
    (get_chunks_dict dimg img chunk_size)[r * img.chx + c]? =
      some ((c, r), chunk_matrix dimg chunk_size c r) := by
  unfold get_chunks_dict
  set L := (List.range img.chy).map (fun ch_row =>
    (List.range img.chx).map (fun ch_column =>
      ((ch_column, ch_row), chunk_matrix dimg chunk_size ch_column ch_row))) with hL
  have hlen : ∀ l ∈ L, l.length = img.chx := by
    intro l hl
    rw [hL, List.mem_map] at hl
    obtain ⟨a, _, rfl⟩ := hl
    simp
  have hrL : r < L.length := by
    rw [hL]
    simpa using hr
  rw [flatten_getElem_uniform img.chx c hc L r hlen hrL, hL, List.getElem?_map,
    List.getElem?_range hr]
  simp only [Option.map_some', Option.some_bind]
  rw [List.getElem?_map, List.getElem?_range hc]
  rfl

theorem chunk_matrix_entry (dimg : ImageData) (chunk_size : Point) (c r x y : Nat)
    (hx : x < chunk_size.x) (hy : y < chunk_size.y) :
    ((chunk_matrix dimg chunk_size c r)[y]?).bind (fun row => row[x]?) =
      some (colorString (dimg.pix (y + r * chunk_size.y) (x + c * chunk_size.x))) := by
  unfold chunk_matrix
  rw [List.getElem?_map, List.getElem?_range hy]
  simp only [Option.map_some', Option.some_bind]
  rw [List.getElem?_map, List.getElem?_range hx]
  rfl

/-- Claim C2: for every validated image, chunk coordinate (c, r) and in-chunk
position (x, y), the row-major map entry at position r * chx + c is keyed
(c, r); within its matrix the string at row y, column x equals the
red-green-blue hexadecimal encoding of the source pixel at pixel position
(r * chunk.height + y, c * chunk.width + x), even though the buffer stores
the channels blue first; and the string matches the lowercase color pattern. -/
theorem emitted_color_string (dimg : ImageData) (img : Image) (chunk_size : Point)
    (c r x y bb gg rr : Nat)
    (hc : c < img.chx) (hr : r < img.chy) (hx : x < chunk_size.x) (hy : y < chunk_size.y)
    (hpix : dimg.pix (r * chunk_size.y + y) (c * chunk_size.x + x) = [bb, gg, rr])
    (hb : bb < 256) (hg : gg < 256) (hrr : rr < 256) :
    (get_chunks_dict dimg img chunk_size)[r * img.chx + c]? =
      some ((c, r), chunk_matrix dimg chunk_size c r) ∧
    ((chunk_matrix dimg chunk_size c r)[y]?).bind (fun row => row[x]?) =
      some (rgbHexEncoding rr gg bb) ∧
    matchesColorPattern (rgbHexEncoding rr gg bb) = true := by
  refine ⟨get_chunks_dict_entry dimg img chunk_size c r hc hr, ?_, ?_⟩
  · rw [chunk_matrix_entry dimg chunk_size c r x y hx hy,
      Nat.add_comm y (r * chunk_size.y), Nat.add_comm x (c * chunk_size.x), hpix,
      colorString_bgr]
  · exact colorPattern_append (pyHex2 rr) (pyHex2 gg) (pyHex2 bb)
      (hex2ok_pyHex2 rr hrr) (hex2ok_pyHex2 gg hg) (hex2ok_pyHex2 bb hb)

theorem emitted_color_string_witness :
    (get_chunks_dict (ImageData.mk 16 16 (fun _ _ => [1, 2, 3])) (Image.mk "i" 1 1)
        (Point.mk 16 16))[0 * (Image.mk "i" 1 1).chx + 0]? =
      some ((0, 0), chunk_matrix (ImageData.mk 16 16 (fun _ _ => [1, 2, 3]))
        (Point.mk 16 16) 0 0) ∧
    ((chunk_matrix (ImageData.mk 16 16 (fun _ _ => [1, 2, 3])) (Point.mk 16 16) 0 0)[0]?).bind
        (fun row => row[0]?) = some (rgbHexEncoding 3 2 1) ∧
    matchesColorPattern (rgbHexEncoding 3 2 1) = true :=
  emitted_color_string (ImageData.mk 16 16 (fun _ _ => [1, 2, 3])) (Image.mk "i" 1 1)
    (Point.mk 16 16) 0 0 0 0 1 2 3 (by decide) (by decide) (by decide) (by decide)
    (by decide) (by decide) (by decide) (by decide)

/-- Claim C4: over a chunk map with N entries and group size G between 1 and
10, the generator yields exactly ceil(N / G) groups; the emitted sequence
indices are exactly 0, 1, ..., ceil(N / G) - 1 in order; each group is built
from the slice of G chunks at offset j * G, whose length is G except for the
last group, where it is N mod G (or G when N mod G = 0). -/
theorem grouping_and_indices
    (chunks_dict : List ((Nat × Nat) × List (List String))) (G : Nat) (brackets : Brackets)
    (hG1 : 1 ≤ G) (hG10 : G ≤ 10) (hN : 1 ≤ chunks_dict.length) :
    (output_generator chunks_dict G brackets).length = (chunks_dict.length + G - 1) / G ∧
    (output_generator chunks_dict G brackets).map Prod.snd =
      List.range ((chunks_dict.length + G - 1) / G) ∧
    (∀ j, j < (chunks_dict.length + G - 1) / G →
      (listSlice chunks_dict (j * G) G).length =
        if j + 1 = (chunks_dict.length + G - 1) / G then
          (if chunks_dict.length % G = 0 then G else chunks_dict.length % G)
        else G) ∧
    (∀ j, j < (chunks_dict.length + G - 1) / G →
      (output_generator chunks_dict G brackets)[j]? =
        some (Chunk.mk (group_header (listSlice (chunks_dict.map Prod.fst) (j * G) G))
                       (group_data (listSlice (chunks_dict.map Prod.snd) (j * G) G) brackets),
              j)) := by
  have hG : 0 < G := hG1
  set N := chunks_dict.length with hNdef
  set k := (N + G - 1) / G with hk
  have hkq : k = (N - 1) / G + 1 := by
    rw [hk, show N + G - 1 = (N - 1) + G by omega, Nat.add_div_right _ hG]
  have hupper : N ≤ k * G := by
    have h3 := Nat.div_add_mod (N - 1) G
    have h4 : (N - 1) % G < G := Nat.mod_lt _ hG
    have h5 : k * G = G * ((N - 1) / G) + G := by rw [hkq]; ring
    omega
  have hlower : (k - 1) * G ≤ N - 1 := by
    rw [hkq]
    simpa using Nat.div_mul_le_self (N - 1) G
  refine ⟨?_, output_generator_map_snd chunks_dict G brackets hG, ?_, ?_⟩
  · rw [output_generator_eq_map_range chunks_dict G brackets hG]
    simp [hk]
  · intro j hj
    have hslice : (listSlice chunks_dict (j * G) G).length = min G (N - j * G) := by
      simp [listSlice, List.length_take, List.length_drop]
    rw [hslice]
    by_cases hlast : j + 1 = k
    · rw [if_pos hlast]
      have hle : j * G ≤ N - 1 := by
        rw [show j = k - 1 by omega]
        exact hlower
      have hup : N ≤ j * G + G := by
        have h6 : k * G = j * G + G := by
          rw [show k = j + 1 from hlast.symm]
          ring
        omega
      have hNeq : N = j * G + (N - j * G) := by omega
      by_cases hfull : N - j * G = G
      · have hmod : N % G = 0 := by
          rw [show N = G * (j + 1) by rw [hNeq, hfull]; ring]
          exact Nat.mul_mod_right G (j + 1)
        rw [hmod, if_pos rfl, hfull]
        exact Nat.min_self G
      · have hslt : N - j * G < G := by omega
        have hmod : N % G = N - j * G := by
          conv_lhs => rw [hNeq]
          rw [Nat.add_comm (j * G) (N - j * G)]
          rw [show j * G = j * G from rfl, Nat.add_mul_mod_self_right,
            Nat.mod_eq_of_lt hslt]
        rw [hmod, if_neg (by omega)]
        exact Nat.min_eq_right (Nat.le_of_lt hslt)
    · rw [if_neg hlast]
      have hj1 : j + 1 ≤ k - 1 := by omega
      have h6 : (j + 1) * G ≤ (k - 1) * G := Nat.mul_le_mul_right G hj1
      have h7 : (j + 1) * G = j * G + G := by ring
      have h8 : G ≤ N - j * G := by omega
      exact Nat.min_eq_left h8
  · intro j hj
    rw [output_generator_eq_map_range chunks_dict G brackets hG, List.getElem?_map,
      List.getElem?_range hj]
    rfl

theorem grouping_and_indices_witness :
    (output_generator sampleDict 2 sampleBrackets).length = (sampleDict.length + 2 - 1) / 2 ∧
    (output_generator sampleDict 2 sampleBrackets).map Prod.snd =
      List.range ((sampleDict.length + 2 - 1) / 2) ∧
    (listSlice sampleDict (1 * 2) 2).length =
      (if 1 + 1 = (sampleDict.length + 2 - 1) / 2 then
        (if sampleDict.length % 2 = 0 then 2 else sampleDict.length % 2) else 2) ∧
    (output_generator sampleDict 2 sampleBrackets)[1]? =
      some (Chunk.mk (group_header (listSlice (sampleDict.map Prod.fst) (1 * 2) 2))
                     (group_data (listSlice (sampleDict.map Prod.snd) (1 * 2) 2)
                       sampleBrackets), 1) :=
  ⟨(grouping_and_indices sampleDict 2 sampleBrackets (by decide) (by decide) (by decide)).1,
   (grouping_and_indices sampleDict 2 sampleBrackets (by decide) (by decide) (by decide)).2.1,
   (grouping_and_indices sampleDict 2 sampleBrackets (by decide) (by decide)
     (by decide)).2.2.1 1 (by decide),
   (grouping_and_indices sampleDict 2 sampleBrackets (by decide) (by decide)
     (by decide)).2.2.2 1 (by decide)⟩

end Digi
